import Mathlib

/-!
Verification of the Kinetic task/session state machine and its JSON
handling, modelled shallowly from `src/App.tsx`, `src/types.ts` and the
Gemini service module (`src/unnamed/part_000`).

Strings are modelled as `String`/`List Char`; the JavaScript runtime
representation of the TypeScript string enums (`TaskStatus`,
`VerificationStatus`, `AgentType`, message roles and personalities) is a
plain string, so those fields are modelled as `String` with named
constants.  `Option String` models a field that may be `undefined` at
runtime.  JavaScript numbers that the application stores
(`estimatedMinutes`, `timestamp`) are integers in every reachable state,
so they are modelled as `Int`.
-/


/-- Modelled from the spec: JavaScript whitespace as used by `trim` and by
JSON parsing, restricted to the ASCII whitespace the application's data
contains. -/
def isWsChar (c : Char) : Bool :=
  c = ' ' || c = '\t' || c = '\n' || c = '\r'

/-- Drop leading whitespace characters. -/
def skipWs : List Char → List Char
  | [] => []
  | c :: cs => if isWsChar c then skipWs cs else c :: cs

/-- Modelled from the spec: `String.prototype.trim` (drop whitespace from
both ends). -/
def trimChars (cs : List Char) : List Char :=
  ((skipWs cs).reverse |> skipWs).reverse

/-- Does `pat` occur at the very start of the list? -/
def leadsWith : List Char → List Char → Bool
  | [], _ => true
  | p :: ps, c :: cs => p = c && leadsWith ps cs
  | _ :: _, [] => false

/-- Fuelled worker for `replaceAllChars`; the fuel is an upper bound on the
number of characters consumed, so `cs.length` always suffices for a
non-empty pattern. -/
def replaceAllF (pat : List Char) : Nat → List Char → List Char
  | 0, cs => cs
  | _ + 1, [] => []
  | fuel + 1, c :: cs =>
    if leadsWith pat (c :: cs) then replaceAllF pat fuel (List.drop (pat.length - 1) cs)
    else c :: replaceAllF pat fuel cs

/-- Modelled from the spec: `String.prototype.replace` with a global
literal pattern and empty replacement — delete every non-overlapping
occurrence of `pat`, scanning left to right. -/
def replaceAllChars (pat cs : List Char) : List Char :=
  replaceAllF pat cs.length cs

/-- Modelled from the spec: `String.prototype.indexOf` for a single
character, returning `none` for the JavaScript result `-1`. -/
def indexOfChar (c : Char) : List Char → Option Nat
  | [] => none
  | d :: ds => if d = c then some 0 else (indexOfChar c ds).map (· + 1)

/-- Modelled from the spec: `String.prototype.lastIndexOf` for a single
character. -/
def lastIndexOfChar (c : Char) (cs : List Char) : Option Nat :=
  (indexOfChar c cs.reverse).map (fun k => cs.length - 1 - k)

/-- Modelled from the spec: `String.prototype.substring`, which clamps
both arguments to the string length and swaps them when start exceeds
end. -/
def jsSubstring (cs : List Char) (a b : Nat) : List Char :=
  let la := min a cs.length
  let lb := min b cs.length
  (cs.drop (min la lb)).take (max la lb - min la lb)

/-- The opening-brace character, written via its code point. -/
def braceL : Char := Char.ofNat 123

/-- The closing-brace character, written via its code point. -/
def braceR : Char := Char.ofNat 125

/-- The markdown fence the service strips first. -/
def fenceJson : String := "```json"

/-- The bare markdown fence the service strips second. -/
def fence : String := "```"

/-- The fence-stripped, trimmed text `cleanJson` computes before locating
brackets (`let cleaned = text.replace(/```json/g, '').replace(/```/g,
'').trim()` in the source). -/
def cleanedText (s : String) : List Char :=
  trimChars (replaceAllChars fence.data (replaceAllChars fenceJson.data s.data))

/-- From the service module's `cleanJson`: return `"{}"` for a falsy
input; otherwise strip markdown fences and trim, then cut from the first
`braceL` to the last `braceR` when a brace exists, a closing brace exists
and no bracket occurs before the first brace; otherwise cut from the
first `[` to the last `]` when both exist; otherwise return the cleaned
text unchanged. -/
def cleanJson (text : String) : String :=
  if text.data = [] then String.mk [braceL, braceR]
  else
    let cleaned := cleanedText text
    let firstBrace := indexOfChar braceL cleaned
    let lastBrace := lastIndexOfChar braceR cleaned
    let firstBracket := indexOfChar '[' cleaned
    let lastBracket := lastIndexOfChar ']' cleaned
    match firstBrace, lastBrace with
    | some fb, some lb =>
      if (match firstBracket with | none => true | some fk => fb < fk) then
        String.mk (jsSubstring cleaned fb (lb + 1))
      else
        match firstBracket, lastBracket with
        | some fk, some lk => String.mk (jsSubstring cleaned fk (lk + 1))
        | _, _ => String.mk cleaned
    | _, _ =>
      match firstBracket, lastBracket with
      | some fk, some lk => String.mk (jsSubstring cleaned fk (lk + 1))
      | _, _ => String.mk cleaned

/-!
JSON values, modelled from the spec (ECMA-404 / `JSON.parse` /
`JSON.stringify` are platform builtins, not repository code).  Numbers
are restricted to the integers, the only numeric values the application
serializes; the parser therefore rejects fractional/exponent syntax and,
unlike `JSON.parse`, does not reject a redundant leading zero.  A
`\uXXXX` escape is decoded as a single scalar value (the application only
ever produces `\u00XX` control-character escapes).
-/
inductive Json where
  | null
  | bool (b : Bool)
  | num (n : Int)
  | str (s : String)
  | arr (xs : List Json)
  | obj (kvs : List (String × Json))

/-- Lower-case hexadecimal digit for `n < 16`, as `JSON.stringify`
emits in `\u00XX` escapes. -/
def hexDigitChar (n : Nat) : Char :=
  if n < 10 then Char.ofNat (48 + n) else Char.ofNat (87 + n)

/-- Modelled from the spec: the escape `JSON.stringify` applies to one
character inside a string literal. -/
def escChar (c : Char) : List Char :=
  if c = '\"' then ['\\', '\"']
  else if c = '\\' then ['\\', '\\']
  else if c = Char.ofNat 8 then ['\\', 'b']
  else if c = Char.ofNat 9 then ['\\', 't']
  else if c = Char.ofNat 10 then ['\\', 'n']
  else if c = Char.ofNat 12 then ['\\', 'f']
  else if c = Char.ofNat 13 then ['\\', 'r']
  else if c.toNat < 32 then
    '\\' :: 'u' :: '0' :: '0' :: hexDigitChar (c.toNat / 16) :: hexDigitChar (c.toNat % 16) :: []
  else [c]

/-- Escape a whole string body. -/
def escString (cs : List Char) : List Char := cs.flatMap escChar

/-- Decimal digits of a natural number, most significant first. -/
def natDigits (n : Nat) : List Char :=
  if h : n < 10 then [Char.ofNat (48 + n)]
  else natDigits (n / 10) ++ [Char.ofNat (48 + n % 10)]
decreasing_by exact Nat.div_lt_self (by omega) (by omega)

/-- Decimal rendering of an integer. -/
def printInt (i : Int) : List Char :=
  if i < 0 then '-' :: natDigits i.natAbs else natDigits i.natAbs

mutual

/-- Modelled from the spec: `JSON.stringify` (no indentation). -/
def printJson : Json → List Char
  | .null => 'n' :: 'u' :: 'l' :: 'l' :: []
  | .bool true => 't' :: 'r' :: 'u' :: 'e' :: []
  | .bool false => 'f' :: 'a' :: 'l' :: 's' :: 'e' :: []
  | .num i => printInt i
  | .str s => '\"' :: escString s.data ++ ['\"']
  | .arr xs => '[' :: printElems xs ++ [']']
  | .obj kvs => braceL :: printMembers kvs ++ [braceR]

/-- Comma-separated rendering of array elements. -/
def printElems : List Json → List Char
  | [] => []
  | [x] => printJson x
  | x :: y :: xs => printJson x ++ ',' :: printElems (y :: xs)

/-- Comma-separated rendering of object members, each as
`"key":value`. -/
def printMembers : List (String × Json) → List Char
  | [] => []
  | [(k, v)] => '\"' :: escString k.data ++ '\"' :: ':' :: printJson v
  | (k, v) :: kv2 :: kvs =>
    ('\"' :: escString k.data ++ '\"' :: ':' :: printJson v) ++ ',' :: printMembers (kv2 :: kvs)

end

/-- Value of a hexadecimal digit character. -/
def hexVal (c : Char) : Option Nat :=
  if 48 ≤ c.toNat ∧ c.toNat ≤ 57 then some (c.toNat - 48)
  else if 97 ≤ c.toNat ∧ c.toNat ≤ 102 then some (c.toNat - 87)
  else if 65 ≤ c.toNat ∧ c.toNat ≤ 70 then some (c.toNat - 55)
  else none

/-- Decode a single-character JSON string escape. -/
def escDecode (e : Char) : Option Char :=
  if e = '\"' then some '\"'
  else if e = '\\' then some '\\'
  else if e = '/' then some '/'
  else if e = 'b' then some (Char.ofNat 8)
  else if e = 'f' then some (Char.ofNat 12)
  else if e = 'n' then some (Char.ofNat 10)
  else if e = 'r' then some (Char.ofNat 13)
  else if e = 't' then some (Char.ofNat 9)
  else none

/-- Parse the body of a JSON string literal after the opening quote,
returning the decoded characters and the text after the closing quote.
Raw control characters are rejected, as `JSON.parse` rejects them. -/
def parseStrBody : List Char → Option (List Char × List Char)
  | [] => none
  | c :: cs =>
    if c = '\"' then some ([], cs)
    else if c = '\\' then
      match cs with
      | 'u' :: h1 :: h2 :: h3 :: h4 :: cs' =>
        match hexVal h1, hexVal h2, hexVal h3, hexVal h4 with
        | some a, some b, some c4, some d =>
          match parseStrBody cs' with
          | some (s, r) => some (Char.ofNat (((a * 16 + b) * 16 + c4) * 16 + d) :: s, r)
          | none => none
        | _, _, _, _ => none
      | e :: cs' =>
        match escDecode e with
        | some ch =>
          match parseStrBody cs' with
          | some (s, r) => some (ch :: s, r)
          | none => none
        | none => none
      | [] => none
    else if c.toNat < 32 then none
    else
      match parseStrBody cs with
      | some (s, r) => some (c :: s, r)
      | none => none

/-- Decimal digit test (code points 48–57). -/
def isDigitChar (c : Char) : Bool := 48 ≤ c.toNat && c.toNat ≤ 57

/-- Numeric value of a decimal digit character. -/
def digitVal (c : Char) : Nat := c.toNat - 48

/-- Parse a non-empty run of decimal digits. -/
def parseNatNum (cs : List Char) : Option (Nat × List Char) :=
  if (cs.takeWhile isDigitChar).isEmpty then none
  else some ((cs.takeWhile isDigitChar).foldl (fun a c => a * 10 + digitVal c) 0,
             cs.dropWhile isDigitChar)

mutual

/-- Modelled from the spec: recursive-descent `JSON.parse` value parser.
The fuel bounds the recursion depth; `2 * length + 1` always suffices
(see `parseVal_print`). -/
def parseVal : Nat → List Char → Option (Json × List Char)
  | 0, _ => none
  | fuel + 1, cs =>
    match skipWs cs with
    | [] => none
    | c :: cs' =>
      if c = '\"' then
        match parseStrBody cs' with
        | some (s, r) => some (.str (String.mk s), r)
        | none => none
      else if c = braceL then
        match skipWs cs' with
        | [] => none
        | d :: r =>
          if d = braceR then some (.obj [], r)
          else
            match parseMembers fuel (d :: r) with
            | some (kvs, r') => some (.obj kvs, r')
            | none => none
      else if c = '[' then
        match skipWs cs' with
        | [] => none
        | d :: r =>
          if d = ']' then some (.arr [], r)
          else
            match parseElems fuel (d :: r) with
            | some (xs, r') => some (.arr xs, r')
            | none => none
      else if c = 't' then
        match cs' with
        | 'r' :: 'u' :: 'e' :: r => some (.bool true, r)
        | _ => none
      else if c = 'f' then
        match cs' with
        | 'a' :: 'l' :: 's' :: 'e' :: r => some (.bool false, r)
        | _ => none
      else if c = 'n' then
        match cs' with
        | 'u' :: 'l' :: 'l' :: r => some (.null, r)
        | _ => none
      else if c = '-' then
        match parseNatNum cs' with
        | some (n, r) => some (.num (-(n : Int)), r)
        | none => none
      else if isDigitChar c then
        match parseNatNum (c :: cs') with
        | some (n, r) => some (.num (n : Int), r)
        | none => none
      else none

/-- Parse the elements of a non-empty array up to and including the
closing bracket. -/
def parseElems : Nat → List Char → Option (List Json × List Char)
  | 0, _ => none
  | fuel + 1, cs =>
    match parseVal fuel cs with
    | some (v, r) =>
      match skipWs r with
      | ',' :: rr =>
        match parseElems fuel rr with
        | some (vs, r') => some (v :: vs, r')
        | none => none
      | ']' :: rr => some ([v], rr)
      | _ => none
    | none => none

/-- Parse the members of a non-empty object up to and including the
closing brace. -/
def parseMembers : Nat → List Char → Option (List (String × Json) × List Char)
  | 0, _ => none
  | fuel + 1, cs =>
    match skipWs cs with
    | [] => none
    | c :: cs' =>
      if c = '\"' then
        match parseStrBody cs' with
        | some (k, r) =>
          match skipWs r with
          | ':' :: r2 =>
            match parseVal fuel r2 with
            | some (v, r3) =>
              match skipWs r3 with
              | d :: rr =>
                if d = ',' then
                  match parseMembers fuel rr with
                  | some (kvs, r') => some ((String.mk k, v) :: kvs, r')
                  | none => none
                else if d = braceR then some ([(String.mk k, v)], rr)
                else none
              | [] => none
            | none => none
          | _ => none
        | none => none
      else none

end

/-- Modelled from the spec: `JSON.parse` — parse one JSON value and
require only trailing whitespace after it. -/
def parseJson (s : String) : Option Json :=
  match parseVal (2 * s.data.length + 1) s.data with
  | some (j, r) => if (skipWs r).isEmpty then some j else none
  | none => none

/-!
Data model from `src/types.ts`.  At the JavaScript runtime the string
enums and union types are plain strings, so they are modelled as
`String` fields together with named constants; `Option String` models an
optional (`?:`) field, whose `none` is the `undefined` that
`JSON.stringify` omits.
-/
/-- Runtime value of `TaskStatus.PENDING`. -/
def TaskStatus.PENDING : String := "PENDING"

/-- Runtime value of `TaskStatus.DRAFTING`. -/
def TaskStatus.DRAFTING : String := "DRAFTING"

/-- Runtime value of `TaskStatus.READY`. -/
def TaskStatus.READY : String := "READY"

/-- Runtime value of `TaskStatus.IN_PROGRESS`. -/
def TaskStatus.IN_PROGRESS : String := "IN_PROGRESS"

/-- Runtime value of `TaskStatus.COMPLETED`. -/
def TaskStatus.COMPLETED : String := "COMPLETED"

/-- Runtime value of `VerificationStatus.PENDING`. -/
def VerificationStatus.PENDING : String := "PENDING"

/-- The four valid `AgentType` union members. -/
def validAgentTypes : List String := ["RESEARCHER", "CODER", "WRITER", "STRATEGIST"]

/-- From `src/types.ts` `ChatMessage`. -/
structure ChatMessage where
  id : String
  role : String
  text : String
  timestamp : Int
  senderName : Option String
  personality : Option String
deriving DecidableEq

/-- From `src/types.ts` `MicroTask`. -/
structure MicroTask where
  id : String
  title : String
  description : String
  estimatedMinutes : Int
  status : String
  verificationStatus : String
  agentType : String
  content : Option String
  visualCode : Option String
  chatHistory : List ChatMessage
deriving DecidableEq

/-- From `src/types.ts` `ProjectDNA`.  All six fields are `Option
String`: the success path of `synthesizeDNA` spreads an unvalidated
parsed object, so a field can be `undefined` at runtime even though the
TypeScript type says `string`. -/
structure ProjectDNA where
  audience : Option String
  problem : Option String
  tone : Option String
  antiGoals : Option String
  stakes : Option String
  rawContext : Option String
deriving DecidableEq

/-!
Serialization of the persisted `{dna, tasks}` record
(`JSON.stringify({ dna, tasks })` in `src/App.tsx`), and the read-back
performed by the load effect (`JSON.parse` followed by `setDna(data.dna);
setTasks(data.tasks)`).  `JSON.stringify` omits a property whose value is
`undefined`; the decoder reads properties by key, `none` when absent.
The source performs no schema validation on the parsed data; the decoder
returns `none` exactly on data that is not the well-typed shape the
application itself writes.
-/
/-- Encode an optional string property: present when `some`, omitted when
`none`, exactly as `JSON.stringify` treats `undefined`. -/
def optField (k : String) (v : Option String) : List (String × Json) :=
  match v with
  | some s => [(k, .str s)]
  | none => []

/-- Encode one chat message, properties in object-literal order. -/
def encodeMsg (m : ChatMessage) : Json :=
  .obj ([("id", .str m.id), ("role", .str m.role), ("text", .str m.text),
    ("timestamp", .num m.timestamp)]
    ++ optField "senderName" m.senderName ++ optField "personality" m.personality)

/-- Encode one task, properties in object-literal order. -/
def encodeTask (t : MicroTask) : Json :=
  .obj ([("id", .str t.id), ("title", .str t.title), ("description", .str t.description),
    ("estimatedMinutes", .num t.estimatedMinutes), ("status", .str t.status),
    ("verificationStatus", .str t.verificationStatus), ("agentType", .str t.agentType)]
    ++ optField "content" t.content ++ optField "visualCode" t.visualCode
    ++ [("chatHistory", .arr (t.chatHistory.map encodeMsg))])

/-- Encode the DNA record. -/
def encodeDna (d : ProjectDNA) : Json :=
  .obj (optField "audience" d.audience ++ optField "problem" d.problem
    ++ optField "tone" d.tone ++ optField "antiGoals" d.antiGoals
    ++ optField "stakes" d.stakes ++ optField "rawContext" d.rawContext)

/-- Encode the whole persisted record `{dna, tasks}`. -/
def encodePersisted (d : ProjectDNA) (tasks : List MicroTask) : Json :=
  .obj [("dna", encodeDna d), ("tasks", .arr (tasks.map encodeTask))]

/-- The exact string written to the `kinetic_state` storage key. -/
def persistState (d : ProjectDNA) (tasks : List MicroTask) : String :=
  String.mk (printJson (encodePersisted d tasks))

/-- Property lookup on a parsed object; with duplicate keys the last one
wins, as in a JavaScript object built by `JSON.parse`. -/
def jLookup (kvs : List (String × Json)) (k : String) : Option Json :=
  match kvs.reverse.find? (fun kv => kv.1 == k) with
  | some kv => some kv.2
  | none => none

/-- Read a property as a string, `none` when absent or not a string. -/
def jStr : Option Json → Option String
  | some (.str s) => some s
  | _ => none

/-- Read a property as an integer, `none` when absent or not a number. -/
def jInt : Option Json → Option Int
  | some (.num n) => some n
  | _ => none

/-- Decode one chat message. -/
def decodeMsg (j : Json) : Option ChatMessage :=
  match j with
  | .obj kvs =>
    match jStr (jLookup kvs "id"), jStr (jLookup kvs "role"),
        jStr (jLookup kvs "text"), jInt (jLookup kvs "timestamp") with
    | some i, some ro, some tx, some ts =>
      some { id := i, role := ro, text := tx, timestamp := ts,
             senderName := jStr (jLookup kvs "senderName"),
             personality := jStr (jLookup kvs "personality") }
    | _, _, _, _ => none
  | _ => none

/-- Decode one task. -/
def decodeTask (j : Json) : Option MicroTask :=
  match j with
  | .obj kvs =>
    match jStr (jLookup kvs "id"), jStr (jLookup kvs "title"),
        jStr (jLookup kvs "description"), jInt (jLookup kvs "estimatedMinutes"),
        jStr (jLookup kvs "status"), jStr (jLookup kvs "verificationStatus"),
        jStr (jLookup kvs "agentType") with
    | some i, some ti, some de, some em, some st, some vs, some at2 =>
      match jLookup kvs "chatHistory" with
      | some (.arr ms) =>
        match ms.mapM decodeMsg with
        | some hist =>
          some { id := i, title := ti, description := de, estimatedMinutes := em,
                 status := st, verificationStatus := vs, agentType := at2,
                 content := jStr (jLookup kvs "content"),
                 visualCode := jStr (jLookup kvs "visualCode"),
                 chatHistory := hist }
        | none => none
      | _ => none
    | _, _, _, _, _, _, _ => none
  | _ => none

/-- Decode the DNA record. -/
def decodeDna (j : Json) : Option ProjectDNA :=
  match j with
  | .obj kvs =>
    some { audience := jStr (jLookup kvs "audience"), problem := jStr (jLookup kvs "problem"),
           tone := jStr (jLookup kvs "tone"), antiGoals := jStr (jLookup kvs "antiGoals"),
           stakes := jStr (jLookup kvs "stakes"), rawContext := jStr (jLookup kvs "rawContext") }
  | _ => none

/-- Decode the whole persisted record. -/
def decodePersisted (j : Json) : Option (ProjectDNA × List MicroTask) :=
  match j with
  | .obj kvs =>
    match jLookup kvs "dna", jLookup kvs "tasks" with
    | some jd, some (.arr jts) =>
      match decodeDna jd, jts.mapM decodeTask with
      | some d, some ts => some (d, ts)
      | _, _ => none
    | _, _ => none
  | _ => none

/-- The read path of the load effect: parse the stored string and take
the `dna` and `tasks` properties. -/
def loadState (s : String) : Option (ProjectDNA × List MicroTask) :=
  (parseJson s).bind decodePersisted

/-!
Service functions from the Gemini module.  The external collaborator
call is modelled by its outcome: `none` for a call that throws
(network/service failure) and `some text` for a response, with the
response's `text` field itself optional where the source reads it that
way.  The prompt built from the transcript / DNA only configures the
external call, so it does not influence the modelled result.
-/
/-- From the service module's `generatePlan` descriptor type
(`Omit<MicroTask, 'id' | 'status' | 'content' | 'chatHistory' |
'verificationStatus'>` less the unused optional field). -/
structure PlanItem where
  title : String
  description : String
  estimatedMinutes : Int
  agentType : String
deriving DecidableEq

/-- Decode one plan descriptor from the parsed response.  The source
casts the parsed array without a runtime check; the decoder captures the
schema-conforming responses (`title`/`description` strings,
`estimatedMinutes` number, `agentType` string) the claims quantify
over. -/
def decodePlanItem (j : Json) : Option PlanItem :=
  match j with
  | .obj kvs =>
    match jStr (jLookup kvs "title"), jStr (jLookup kvs "description"),
        jInt (jLookup kvs "estimatedMinutes"), jStr (jLookup kvs "agentType") with
    | some t, some d, some m, some a =>
      some { title := t, description := d, estimatedMinutes := m, agentType := a }
    | _, _, _, _ => none
  | _ => none

/-- From the service module's `generatePlan`: a failed call rethrows; an
absent or empty `response.text` throws `"No plan generated"`; otherwise
the cleaned text is parsed and returned.  Every error propagates to the
caller — there is no fallback plan. -/
def generatePlan (_dna : ProjectDNA) (respText : Option String) : Except String (List PlanItem) :=
  match respText with
  | none => .error "Planning failed"
  | some t =>
    if t.data = [] then .error "No plan generated"
    else
      match parseJson (cleanJson t) with
      | some (.arr items) =>
        match items.mapM decodePlanItem with
        | some plan => .ok plan
        | none => .error "Unparsable plan response"
      | _ => .error "Unparsable plan response"

/-- The fixed fallback DNA built in the `catch` of `synthesizeDNA`,
around the given raw context. -/
def fallbackDNA (raw : String) : ProjectDNA :=
  { audience := some "General Audience", problem := some "Undefined Problem",
    tone := some "Professional", antiGoals := some "Generic content",
    stakes := some "High", rawContext := some raw }

/-- From the service module's `synthesizeDNA`.  `resp` is `none` when the
collaborator call throws; otherwise it carries the optional
`response.text`.  The success path computes
`{ ...JSON.parse(cleanJson(text || "{}")), rawContext }`: a missing or
empty text falls back to `"{}"`, a parse failure lands in the `catch`
(the fixed fallback DNA), and a parsed value contributes exactly the
string properties it has — a non-object value has none of the five keys.
The transcript only shapes the prompt of the external call. -/
def synthesizeDNA (_history : List (String × String)) (resp : Option (Option String))
    (raw : String) : ProjectDNA :=
  match resp with
  | none => fallbackDNA raw
  | some txt =>
    let t := match txt with
      | none => String.mk [braceL, braceR]
      | some u => if u.data = [] then String.mk [braceL, braceR] else u
    match parseJson (cleanJson t) with
    | none => fallbackDNA raw
    | some j =>
      let kvs := match j with
        | .obj kvs => kvs
        | _ => []
      { audience := jStr (jLookup kvs "audience"), problem := jStr (jLookup kvs "problem"),
        tone := jStr (jLookup kvs "tone"), antiGoals := jStr (jLookup kvs "antiGoals"),
        stakes := jStr (jLookup kvs "stakes"), rawContext := some raw }

/-!
Application state and its operations, from the `App` component in
`src/App.tsx`.  The React `useState` cells are the fields of `AppModel`;
`localStorage` is the `store` field (the single `kinetic_state` key);
`window.alert` is recorded in `lastAlert`; `window.confirm` is a
parameter of `resetApp`.  Each handler becomes a function from the state
(and the outcome of any awaited collaborator call) to the next state.
-/
/-- From `src/types.ts` `AppState`. -/
inductive AppState where
  | IDLE
  | DNA_EXTRACTION
  | DASHBOARD
  | WORKING
  | SUMMARY
deriving DecidableEq

/-- The editor view-mode union of `src/App.tsx`. -/
inductive ViewMode where
  | EDIT
  | PREVIEW
  | VISUAL
deriving DecidableEq

/-- The `useState` cells of `App` that the modelled operations touch,
plus the persisted store and the last alert shown. -/
structure AppModel where
  appState : AppState
  dna : ProjectDNA
  tasks : List MicroTask
  currentTaskId : Option String
  editorContent : String
  viewMode : ViewMode
  audioEnabled : Bool
  showMissionBrief : Bool
  isGenerating : Bool
  lastAlert : Option String
  store : Option String
deriving DecidableEq

/-- The all-empty DNA `App` initialises and `resetApp` restores. -/
def emptyDna : ProjectDNA :=
  { audience := some "", problem := some "", tone := some "", antiGoals := some "",
    stakes := some "", rawContext := some "" }

/-- The initial `App` state. -/
def initialModel : AppModel :=
  { appState := .IDLE, dna := emptyDna, tasks := [], currentTaskId := none,
    editorContent := "", viewMode := .EDIT, audioEnabled := false,
    showMissionBrief := false, isGenerating := false, lastAlert := none, store := none }

/-- Overwrite the content of the task with the given id (the
`prev.map(t => t.id === cid ? { ...t, content } : t)` idiom). -/
def overwriteContent (cid : String) (ed : String) (tasks : List MicroTask) : List MicroTask :=
  tasks.map (fun t => if t.id = cid then { t with content := some ed } else t)

/-- The save-current step at the top of `enterTask`: flush the editor
content into the currently pointed-to task, when one exists. -/
def flushCurrent (s : AppModel) : List MicroTask :=
  match s.currentTaskId with
  | some cid => overwriteContent cid s.editorContent s.tasks
  | none => s.tasks

/-- The placeholder `enterTask` writes into the editor when the awaited
draft call rejects. -/
def draftErrorText : String :=
  "// Error generating draft. Please use the chat to request a new one."

/-- JavaScript truthiness test of `task.content` — `undefined` and the
empty string are falsy. -/
def contentFalsy : Option String → Bool
  | none => true
  | some s => s.data = []

/-- From `enterTask` in `src/App.tsx`: flush the current task, look up
the requested id (returning after the flush when absent), point at it,
load its content into the editor, switch to the working view, and — when
the stored content is falsy — draft content for it, marking the task
`IN_PROGRESS` with the draft on success.  `draftResp` is the settled
result of the awaited `draftTaskContent` call. -/
def enterTask (s : AppModel) (taskId : String) (draftResp : Except Unit String) : AppModel :=
  let list := flushCurrent s
  let s1 := { s with tasks := list }
  match list.find? (fun t => t.id == taskId) with
  | none => s1
  | some task =>
    let s2 := { s1 with
      currentTaskId := some taskId, editorContent := task.content.getD "",
      appState := .WORKING, viewMode := .EDIT, audioEnabled := true }
    if contentFalsy task.content then
      match draftResp with
      | .ok draft =>
        { s2 with
          editorContent := draft,
          tasks := s2.tasks.map (fun t =>
            if t.id == taskId then { t with content := some draft, status := TaskStatus.IN_PROGRESS }
            else t),
          isGenerating := false }
      | .error _ => { s2 with editorContent := draftErrorText, isGenerating := false }
    else s2

/-- From `handleExitTask` in `src/App.tsx`: when a current task exists,
overwrite its content with the editor content and write the serialized
`{dna, tasks}` record to the storage key; then show the dashboard. -/
def handleExitTask (s : AppModel) : AppModel :=
  match s.currentTaskId with
  | some cid =>
    let updated := overwriteContent cid s.editorContent s.tasks
    { s with
      tasks := updated, store := some (persistState s.dna updated),
      appState := .DASHBOARD }
  | none => { s with appState := .DASHBOARD }

/-- From `handleCompleteTask` in `src/App.tsx`: when a current task
exists, overwrite its content, mark it `COMPLETED`, persist, and show
the dashboard; otherwise do nothing. -/
def handleCompleteTask (s : AppModel) : AppModel :=
  match s.currentTaskId with
  | some cid =>
    let updated := s.tasks.map (fun t =>
      if t.id = cid then { t with content := some s.editorContent, status := TaskStatus.COMPLETED }
      else t)
    { s with
      tasks := updated, store := some (persistState s.dna updated),
      appState := .DASHBOARD }
  | none => s

/-- The alert `handleLaunch` shows when plan generation fails. -/
def launchAlertText : String := "Mission Generation Failed. Please Retry."

/-- Wrap one plan descriptor into a `MicroTask` as `handleLaunch` does:
generated id, `PENDING` statuses, empty chat history, no content. -/
def mkMicroTask (idv : String) (p : PlanItem) : MicroTask :=
  { id := idv, title := p.title, description := p.description,
    estimatedMinutes := p.estimatedMinutes, status := TaskStatus.PENDING,
    verificationStatus := VerificationStatus.PENDING, agentType := p.agentType,
    content := none, visualCode := none, chatHistory := [] }

/-- Materialize the plan from index `i` on; `ids` is the sequence of
values the successive `crypto.randomUUID()` calls return. -/
def materializeFrom (ids : Nat → String) : Nat → List PlanItem → List MicroTask
  | _, [] => []
  | i, p :: ps => mkMicroTask (ids i) p :: materializeFrom ids (i + 1) ps

/-- Materialize a whole plan into tasks. -/
def materializeTasks (plan : List PlanItem) (ids : Nat → String) : List MicroTask :=
  materializeFrom ids 0 plan

/-- From `handleLaunch` in `src/App.tsx`: on success replace the task
list with the materialized plan and close the mission brief (the
scheduled `enterTask` into the first task fires later, as its own step);
an empty plan goes straight to the dashboard.  On failure alert the user
and change nothing else. -/
def handleLaunch (s : AppModel) (respText : Option String) (ids : Nat → String) : AppModel :=
  match generatePlan s.dna respText with
  | .error _ => { s with lastAlert := some launchAlertText, isGenerating := false }
  | .ok plan =>
    let newTasks := materializeTasks plan ids
    let s1 := { s with tasks := newTasks, showMissionBrief := false, isGenerating := false }
    if newTasks.isEmpty then { s1 with appState := .DASHBOARD } else s1

/-- From `resetApp` in `src/App.tsx`: behind the confirmation, delete the
storage key and reset the view, DNA, tasks, pointer and editor; a
declined confirmation changes nothing. -/
def resetApp (s : AppModel) (confirmed : Bool) : AppModel :=
  if confirmed then
    { s with
      store := none, appState := .IDLE, dna := emptyDna, tasks := [],
      currentTaskId := none, editorContent := "" }
  else s

/-- One user-triggered operation of the modelled state machine. -/
inductive AppStep : AppModel → AppModel → Prop where
  | launch (s : AppModel) (respText : Option String) (ids : Nat → String) :
      AppStep s (handleLaunch s respText ids)
  | enter (s : AppModel) (taskId : String) (draftResp : Except Unit String) :
      AppStep s (enterTask s taskId draftResp)
  | exitTask (s : AppModel) : AppStep s (handleExitTask s)
  | complete (s : AppModel) : AppStep s (handleCompleteTask s)
  | reset (s : AppModel) (confirmed : Bool) : AppStep s (resetApp s confirmed)

/-- States reachable from the initial state by the modelled
operations. -/
def ReachableModel (s : AppModel) : Prop :=
  Relation.ReflTransGen AppStep initialModel s

/-- C3 witness: exiting from a concrete working state flushes and
persists. -/
def c3sample : AppModel :=
  { initialModel with
    appState := .WORKING,
    tasks := [{ id := "t1", title := "T", description := "D", estimatedMinutes := 5,
                status := TaskStatus.IN_PROGRESS, verificationStatus := VerificationStatus.PENDING,
                agentType := "WRITER", content := some "old", visualCode := none, chatHistory := [] }],
    currentTaskId := some "t1", editorContent := "new text" }

/-- Concrete one-task state used by the C1 witness. -/
def c1sample : AppModel :=
  { initialModel with
    tasks := [{ id := "w1", title := "W", description := "D", estimatedMinutes := 3,
                status := TaskStatus.PENDING, verificationStatus := VerificationStatus.PENDING,
                agentType := "CODER", content := none, visualCode := none, chatHistory := [] }] }

/-- The task `enterTask` produces from `c1sample`'s pending task. -/
def c1marked : MicroTask :=
  { id := "w1", title := "W", description := "D", estimatedMinutes := 3,
    status := TaskStatus.IN_PROGRESS, verificationStatus := VerificationStatus.PENDING,
    agentType := "CODER", content := some "d0", visualCode := none, chatHistory := [] }

/-- The id sequence used by the C1 counterexample launch. -/
def cexIds : Nat → String := fun n =>
  match n with
  | 0 => "t0"
  | 1 => "t1"
  | _ => "tx"

/-- A two-descriptor plan response. -/
def planJson2 : String :=
  "[\x7b\"title\":\"a\",\"description\":\"da\",\"estimatedMinutes\":5,\"agentType\":\"WRITER\"\x7d,\x7b\"title\":\"b\",\"description\":\"db\",\"estimatedMinutes\":8,\"agentType\":\"CODER\"\x7d]"

/-- Launch a two-task plan. -/
def cexS1 : AppModel := handleLaunch initialModel (some planJson2) cexIds

/-- Enter the first task (the launch's scheduled auto-entry). -/
def cexS2 : AppModel := enterTask cexS1 "t0" (.ok "draft0")

/-- Exit back to the dashboard without completing. -/
def cexS3 : AppModel := handleExitTask cexS2

/-- Enter the second task. -/
def cexS4 : AppModel := enterTask cexS3 "t1" (.ok "draft1")

/-- A five-descriptor plan response with valid agent types. -/
def planJson5 : String :=
  "[\x7b\"title\":\"a\",\"description\":\"d1\",\"estimatedMinutes\":5,\"agentType\":\"RESEARCHER\"\x7d,\x7b\"title\":\"b\",\"description\":\"d2\",\"estimatedMinutes\":10,\"agentType\":\"CODER\"\x7d,\x7b\"title\":\"c\",\"description\":\"d3\",\"estimatedMinutes\":15,\"agentType\":\"WRITER\"\x7d,\x7b\"title\":\"d\",\"description\":\"d4\",\"estimatedMinutes\":20,\"agentType\":\"STRATEGIST\"\x7d,\x7b\"title\":\"e\",\"description\":\"d5\",\"estimatedMinutes\":25,\"agentType\":\"WRITER\"\x7d]"

/-- The descriptors `planJson5` parses to. -/
def plan5 : List PlanItem :=
  [⟨"a", "d1", 5, "RESEARCHER"⟩, ⟨"b", "d2", 10, "CODER"⟩, ⟨"c", "d3", 15, "WRITER"⟩,
   ⟨"d", "d4", 20, "STRATEGIST"⟩, ⟨"e", "d5", 25, "WRITER"⟩]

/-- Five distinct generated ids. -/
def ids5 : Nat → String := fun n =>
  match n with
  | 0 => "u0"
  | 1 => "u1"
  | 2 => "u2"
  | 3 => "u3"
  | 4 => "u4"
  | _ => "ux"

/-- A trailing context that cannot extend a digit run. -/
def numBoundary : List Char → Bool
  | [] => true
  | c :: _ => !(isDigitChar c)

mutual

/-- Structural size of a JSON value, bounding the parser fuel it
needs. -/
def jsize : Json → Nat
  | .null => 1
  | .bool _ => 1
  | .num _ => 1
  | .str _ => 1
  | .arr xs => 1 + jsizeL xs
  | .obj kvs => 1 + jsizeM kvs

/-- Size of an element list. -/
def jsizeL : List Json → Nat
  | [] => 1
  | x :: xs => 1 + jsize x + jsizeL xs

/-- Size of a member list. -/
def jsizeM : List (String × Json) → Nat
  | [] => 1
  | kv :: kvs => 1 + jsize kv.2 + jsizeM kvs

end

/-!
Supporting lemmas about the string utilities.
-/
/-- Characters surviving `skipWs` come from the input. -/
theorem mem_skipWs {c : Char} : ∀ {cs : List Char}, c ∈ skipWs cs → c ∈ cs
  | [], h => h
  | d :: ds, h => by
    by_cases hw : isWsChar d = true
    · simp only [skipWs, hw, if_true] at h
      exact List.mem_cons_of_mem _ (mem_skipWs h)
    · simp only [skipWs, hw, if_false] at h
      exact h

/-- Characters surviving `trimChars` come from the input. -/
theorem mem_trimChars {c : Char} {cs : List Char} (h : c ∈ trimChars cs) : c ∈ cs := by
  unfold trimChars at h
  rw [List.mem_reverse] at h
  have h2 := mem_skipWs h
  rw [List.mem_reverse] at h2
  exact mem_skipWs h2

/-- Characters surviving `replaceAllF` come from the input (the
replacement is empty). -/
theorem mem_replaceAllF {c : Char} (pat : List Char) :
    ∀ (fuel : Nat) (cs : List Char), c ∈ replaceAllF pat fuel cs → c ∈ cs
  | 0, _, h => h
  | _ + 1, [], h => by simp [replaceAllF] at h
  | fuel + 1, d :: ds, h => by
    by_cases hm : leadsWith pat (d :: ds) = true
    · simp only [replaceAllF, hm, if_true] at h
      exact List.mem_cons_of_mem _ (List.mem_of_mem_drop (mem_replaceAllF pat fuel _ h))
    · simp only [replaceAllF, hm, if_false] at h
      rcases List.mem_cons.mp h with h1 | h1
      · exact h1 ▸ List.mem_cons_self _ _
      · exact List.mem_cons_of_mem _ (mem_replaceAllF pat fuel _ h1)

/-- Characters surviving the fence-strip-and-trim come from the input. -/
theorem mem_cleanedText {c : Char} {s : String} (h : c ∈ cleanedText s) : c ∈ s.data := by
  unfold cleanedText replaceAllChars at h
  exact mem_replaceAllF _ _ _ (mem_replaceAllF _ _ _ (mem_trimChars h))

/-- A character that does not occur has no index. -/
theorem indexOfChar_eq_none {c : Char} : ∀ {cs : List Char}, c ∉ cs → indexOfChar c cs = none
  | [], _ => rfl
  | d :: ds, h => by
    have hd : ¬ d = c := fun e => h (e ▸ List.mem_cons_self _ _)
    have ht : c ∉ ds := fun m => h (List.mem_cons_of_mem _ m)
    simp [indexOfChar, hd, indexOfChar_eq_none ht]

/-- C10 (claim): `cleanJson` is total; the empty string yields `"{}"`,
and an input containing neither `braceL` nor `[` is returned with the
markdown fences removed and surrounding whitespace trimmed, nothing
more. -/
theorem c10_cleanJson_total (s : String) :
    cleanJson "" = "\x7b\x7d"
    ∧ (s.data ≠ [] → braceL ∉ s.data → '[' ∉ s.data →
        cleanJson s = String.mk (cleanedText s)) := by
  refine ⟨rfl, fun hne hb hk => ?_⟩
  have hb' : indexOfChar braceL (cleanedText s) = none :=
    indexOfChar_eq_none (fun m => hb (mem_cleanedText m))
  have hk' : indexOfChar '[' (cleanedText s) = none :=
    indexOfChar_eq_none (fun m => hk (mem_cleanedText m))
  simp only [cleanJson, if_neg hne, hb', hk']

/-- C10 witness: a fenced, padded prose input with no braces and no
brackets is exactly fence-stripped and trimmed. -/
theorem c10_witness :
    cleanJson " ```json I cannot answer that.``` " = String.mk (cleanedText " ```json I cannot answer that.``` ")
    ∧ cleanJson " ```json I cannot answer that.``` " = "I cannot answer that." :=
  ⟨(c10_cleanJson_total " ```json I cannot answer that.``` ").2 (by decide) (by decide) (by decide),
   rfl⟩

/-- C2 (amended): on text whose cleaned form contains a `braceL` before
any `[` together with a `braceR`, `cleanJson` returns the cleaned text
cut from the first `braceL` to the last `braceR`; when a `[` occurs
before every `braceL` and a `]` exists, it returns the cut from the
first `[` to the last `]`.  (The cut need not parse as JSON — see the
counterexample.) -/
theorem c2_cleanJson_extraction (s : String) :
    (∀ fb lb, indexOfChar braceL (cleanedText s) = some fb →
      lastIndexOfChar braceR (cleanedText s) = some lb →
      (∀ fk, indexOfChar '[' (cleanedText s) = some fk → fb < fk) →
      cleanJson s = String.mk (jsSubstring (cleanedText s) fb (lb + 1)))
    ∧ (∀ fk lk, indexOfChar '[' (cleanedText s) = some fk →
      lastIndexOfChar ']' (cleanedText s) = some lk →
      (∀ fb, indexOfChar braceL (cleanedText s) = some fb → fk < fb) →
      cleanJson s = String.mk (jsSubstring (cleanedText s) fk (lk + 1))) := by
  have hne : ∀ {c : Char} {k : Nat}, indexOfChar c (cleanedText s) = some k → s.data ≠ [] := by
    intro c k hidx hnil
    simp [cleanedText, replaceAllChars, replaceAllF, trimChars, skipWs, indexOfChar, hnil] at hidx
  constructor
  · intro fb lb hfb hlb hlt
    have hs := hne hfb
    rcases hbrk : indexOfChar '[' (cleanedText s) with _ | fk
    · simp only [cleanJson, if_neg hs, hfb, hlb, hbrk]
      simp
    · have hlt' : fb < fk := hlt fk hbrk
      simp only [cleanJson, if_neg hs, hfb, hlb, hbrk]
      simp [hlt']
  · intro fk lk hfk hlk hgt
    have hs := hne hfk
    rcases hbr : indexOfChar braceL (cleanedText s) with _ | fb
    · simp only [cleanJson, if_neg hs, hbr, hfk, hlk]
    · have hgt' : fk < fb := hgt fb hbr
      rcases hlb : lastIndexOfChar braceR (cleanedText s) with _ | lb
      · simp only [cleanJson, if_neg hs, hbr, hfk, hlk, hlb]
      · simp only [cleanJson, if_neg hs, hbr, hfk, hlk, hlb]
        simp [Nat.not_lt.mpr (Nat.le_of_lt hgt'), Nat.lt_asymm hgt']

/-- C2 witness: prose around a single JSON object is cut to exactly the
object, which parses. -/
theorem c2_witness :
    cleanJson "Sure! \x7b\"a\": 1\x7d Done." =
      String.mk (jsSubstring (cleanedText "Sure! \x7b\"a\": 1\x7d Done.") 6 (13 + 1))
    ∧ parseJson (cleanJson "Sure! \x7b\"a\": 1\x7d Done.") = some (.obj [("a", .num 1)]) :=
  ⟨(c2_cleanJson_extraction "Sure! \x7b\"a\": 1\x7d Done.").1 6 13 rfl rfl
      (by intro fk h; simp [show indexOfChar '[' (cleanedText "Sure! \x7b\"a\": 1\x7d Done.") = none from rfl] at h),
   rfl⟩

/-- C2 counterexample: when the prose after the object contains a stray
`braceR`, the cut runs to that stray brace and the returned text does
not parse as JSON, although the input does contain a JSON object
surrounded by prose. -/
theorem c2_counterexample :
    cleanJson "Result: \x7b\"a\":1\x7d with one stray \x7d mark" = "\x7b\"a\":1\x7d with one stray \x7d"
    ∧ parseJson (cleanJson "Result: \x7b\"a\":1\x7d with one stray \x7d mark") = none
    ∧ parseJson "\x7b\"a\":1\x7d" = some (.obj [("a", .num 1)]) :=
  ⟨rfl, rfl, rfl⟩

/-- C6 (claim): a confirmed reset deletes the storage key, returns the
view to `IDLE`, empties the task list, clears the current-task pointer
and restores the all-empty DNA; a declined reset changes nothing. -/
theorem c6_reset (s : AppModel) :
    (resetApp s true).store = none
    ∧ (resetApp s true).appState = AppState.IDLE
    ∧ (resetApp s true).tasks = []
    ∧ (resetApp s true).currentTaskId = none
    ∧ (resetApp s true).dna = emptyDna
    ∧ (resetApp s true).editorContent = ""
    ∧ resetApp s false = s := by
  simp [resetApp]

/-- Tasks produced by a content overwrite keep the id (and status) of a
task of the input list. -/
theorem mem_overwriteContent {t : MicroTask} {cid ed : String} {l : List MicroTask}
    (h : t ∈ overwriteContent cid ed l) :
    ∃ t₀ ∈ l, t.id = t₀.id ∧ t.status = t₀.status := by
  rcases List.mem_map.mp h with ⟨t₀, ht₀, rfl⟩
  refine ⟨t₀, ht₀, ?_⟩
  by_cases hid : t₀.id = cid <;> simp [hid]

/-- Tasks of the flush performed on entering keep the id and status of a
task of the original list. -/
theorem mem_flushCurrent {t : MicroTask} {s : AppModel} (h : t ∈ flushCurrent s) :
    ∃ t₀ ∈ s.tasks, t.id = t₀.id ∧ t.status = t₀.status := by
  unfold flushCurrent at h
  rcases hc : s.currentTaskId with _ | cid
  · rw [hc] at h; exact ⟨t, h, rfl, rfl⟩
  · rw [hc] at h; exact mem_overwriteContent h

/-- C3 (claim): whenever a current task exists, an explicit exit and an
explicit completion both overwrite the current task's content with the
editor content and write the serialized `{dna, tasks}` record to the
single storage key, in the same step that moves the view to the
dashboard (completion additionally marks the task `COMPLETED`). -/
theorem c3_exit_complete_persist (s : AppModel) (cid : String)
    (h : s.currentTaskId = some cid) :
    ((handleExitTask s).tasks = overwriteContent cid s.editorContent s.tasks
      ∧ (handleExitTask s).store =
          some (persistState s.dna (overwriteContent cid s.editorContent s.tasks))
      ∧ (handleExitTask s).appState = AppState.DASHBOARD
      ∧ ∀ t ∈ (handleExitTask s).tasks, t.id = cid → t.content = some s.editorContent)
    ∧ ((handleCompleteTask s).tasks = s.tasks.map (fun t =>
          if t.id = cid then { t with content := some s.editorContent, status := TaskStatus.COMPLETED }
          else t)
      ∧ (handleCompleteTask s).store =
          some (persistState s.dna (s.tasks.map (fun t =>
            if t.id = cid then { t with content := some s.editorContent, status := TaskStatus.COMPLETED }
            else t)))
      ∧ (handleCompleteTask s).appState = AppState.DASHBOARD
      ∧ ∀ t ∈ (handleCompleteTask s).tasks, t.id = cid →
          t.content = some s.editorContent ∧ t.status = TaskStatus.COMPLETED) := by
  constructor
  · refine ⟨by simp [handleExitTask, h], by simp [handleExitTask, h],
      by simp [handleExitTask, h], ?_⟩
    intro t ht hid
    simp only [handleExitTask, h] at ht
    rcases List.mem_map.mp ht with ⟨t₀, _, rfl⟩
    by_cases h0 : t₀.id = cid
    · simp [h0]
    · simp only [h0, if_false] at hid ⊢
  · refine ⟨by simp [handleCompleteTask, h], by simp [handleCompleteTask, h],
      by simp [handleCompleteTask, h], ?_⟩
    intro t ht hid
    simp only [handleCompleteTask, h] at ht
    rcases List.mem_map.mp ht with ⟨t₀, _, rfl⟩
    by_cases h0 : t₀.id = cid
    · simp [h0]
    · simp only [h0, if_false] at hid ⊢

theorem c3_witness :
    (handleExitTask c3sample).tasks = overwriteContent "t1" c3sample.editorContent c3sample.tasks
    ∧ (handleExitTask c3sample).store =
        some (persistState c3sample.dna (overwriteContent "t1" c3sample.editorContent c3sample.tasks))
    ∧ (handleExitTask c3sample).appState = AppState.DASHBOARD
    ∧ ∀ t ∈ (handleExitTask c3sample).tasks, t.id = "t1" → t.content = some c3sample.editorContent :=
  (c3_exit_complete_persist c3sample "t1" rfl).1

/-- C9 (claim): entering a task id that is not in the task list changes
nothing except that the currently pointed-to task's content is flushed
with the editor content before the lookup fails; the view state, the
pointer and the editor content are untouched. -/
theorem c9_enterTask_missing (s : AppModel) (tid : String) (d : Except Unit String)
    (h : ∀ t ∈ s.tasks, t.id ≠ tid) :
    enterTask s tid d = { s with tasks := flushCurrent s }
    ∧ (enterTask s tid d).appState = s.appState
    ∧ (enterTask s tid d).currentTaskId = s.currentTaskId
    ∧ (enterTask s tid d).editorContent = s.editorContent
    ∧ (enterTask s tid d).store = s.store := by
  have hfind : (flushCurrent s).find? (fun t => t.id == tid) = none := by
    rw [List.find?_eq_none]
    intro t ht
    rcases mem_flushCurrent ht with ⟨t₀, ht₀, hid, _⟩
    simp [hid, h t₀ ht₀]
  have hmain : enterTask s tid d = { s with tasks := flushCurrent s } := by
    simp only [enterTask, hfind]
  exact ⟨hmain, by rw [hmain], by rw [hmain], by rw [hmain], by rw [hmain]⟩

/-- C9 witness: entering an unknown id from a concrete state only
flushes the current task's content. -/
theorem c9_witness :
    enterTask c3sample "missing" (.ok "draft") = { c3sample with tasks := flushCurrent c3sample }
    ∧ (enterTask c3sample "missing" (.ok "draft")).appState = c3sample.appState
    ∧ (enterTask c3sample "missing" (.ok "draft")).currentTaskId = c3sample.currentTaskId
    ∧ (enterTask c3sample "missing" (.ok "draft")).editorContent = c3sample.editorContent
    ∧ (enterTask c3sample "missing" (.ok "draft")).store = c3sample.store :=
  c9_enterTask_missing c3sample "missing" (.ok "draft") (by decide)

/-- C5 (claim): a failed or unparsable plan generation propagates as an
error; the caller then leaves the task list unchanged and records the
user-visible retry alert.  A failed collaborator call and a
non-empty-but-unparsable response are both errors. -/
theorem c5_plan_failure (s : AppModel) (respText : Option String) (ids : Nat → String)
    (e : String) (herr : generatePlan s.dna respText = .error e) :
    handleLaunch s respText ids = { s with lastAlert := some launchAlertText, isGenerating := false }
    ∧ (handleLaunch s respText ids).tasks = s.tasks
    ∧ (handleLaunch s respText ids).lastAlert = some launchAlertText
    ∧ (∀ dna : ProjectDNA, generatePlan dna none = .error "Planning failed")
    ∧ (∀ (dna : ProjectDNA) (t : String), t.data ≠ [] → parseJson (cleanJson t) = none →
        generatePlan dna (some t) = .error "Unparsable plan response") := by
  have hmain : handleLaunch s respText ids =
      { s with lastAlert := some launchAlertText, isGenerating := false } := by
    simp only [handleLaunch, herr]
  refine ⟨hmain, by rw [hmain], by rw [hmain], fun _ => rfl, ?_⟩
  intro dna t hne hparse
  simp [generatePlan, hne, hparse]

/-- C5 witness: a failed collaborator call from a concrete state leaves
the tasks unchanged and records the retry alert. -/
theorem c5_witness :
    handleLaunch c3sample none (fun _ => "u") =
      { c3sample with lastAlert := some launchAlertText, isGenerating := false }
    ∧ (handleLaunch c3sample none (fun _ => "u")).tasks = c3sample.tasks
    ∧ (handleLaunch c3sample none (fun _ => "u")).lastAlert = some launchAlertText
    ∧ (∀ dna : ProjectDNA, generatePlan dna none = .error "Planning failed")
    ∧ (∀ (dna : ProjectDNA) (t : String), t.data ≠ [] → parseJson (cleanJson t) = none →
        generatePlan dna (some t) = .error "Unparsable plan response") :=
  c5_plan_failure c3sample none (fun _ => "u") "Planning failed" rfl

/-- C8 (amended): when the synthesis call fails or its (non-empty)
response text does not parse, `synthesizeDNA` returns exactly the fixed
fallback DNA around the given raw context; the raw context is preserved
on every path.  On a parsed response the five DNA fields are exactly the
string properties the parsed value supplies, so they are not guaranteed
non-empty — see the counterexample. -/
theorem c8_dna_fallback (hist : List (String × String)) (raw : String) :
    synthesizeDNA hist none raw = fallbackDNA raw
    ∧ (∀ t : String, t.data ≠ [] → parseJson (cleanJson t) = none →
        synthesizeDNA hist (some (some t)) raw = fallbackDNA raw)
    ∧ (∀ resp, (synthesizeDNA hist resp raw).rawContext = some raw)
    ∧ (fallbackDNA raw).audience = some "General Audience"
    ∧ (fallbackDNA raw).problem = some "Undefined Problem"
    ∧ (fallbackDNA raw).tone = some "Professional"
    ∧ (fallbackDNA raw).antiGoals = some "Generic content"
    ∧ (fallbackDNA raw).stakes = some "High" := by
  refine ⟨rfl, ?_, ?_, rfl, rfl, rfl, rfl, rfl⟩
  · intro t hne hparse
    simp [synthesizeDNA, hne, hparse]
  · intro resp
    rcases resp with _ | txt
    · rfl
    · rcases txt with _ | u
      · simp only [synthesizeDNA]
        rcases hp : parseJson (cleanJson (String.mk [braceL, braceR])) with _ | j
        · simp [hp, fallbackDNA]
        · simp [hp]
      · simp only [synthesizeDNA]
        by_cases hu : u.data = []
        · simp only [hu, if_true]
          rcases hp : parseJson (cleanJson (String.mk [braceL, braceR])) with _ | j
          · simp [hp, fallbackDNA]
          · simp [hp]
        · simp only [hu, if_false]
          rcases hp : parseJson (cleanJson u) with _ | j
          · simp [hp, fallbackDNA]
          · simp [hp]

/-- C8 witness: with a three-exchange transcript and a failed synthesis
call, the result is the fixed fallback DNA with the raw context
preserved. -/
theorem c8_witness :
    synthesizeDNA [("q1", "a1"), ("q2", "a2"), ("q3", "a3")] none "notes" = fallbackDNA "notes"
    ∧ (∀ t : String, t.data ≠ [] → parseJson (cleanJson t) = none →
        synthesizeDNA [("q1", "a1"), ("q2", "a2"), ("q3", "a3")] (some (some t)) "notes" =
          fallbackDNA "notes")
    ∧ (∀ resp, (synthesizeDNA [("q1", "a1"), ("q2", "a2"), ("q3", "a3")] resp "notes").rawContext =
        some "notes")
    ∧ (fallbackDNA "notes").audience = some "General Audience"
    ∧ (fallbackDNA "notes").problem = some "Undefined Problem"
    ∧ (fallbackDNA "notes").tone = some "Professional"
    ∧ (fallbackDNA "notes").antiGoals = some "Generic content"
    ∧ (fallbackDNA "notes").stakes = some "High" :=
  c8_dna_fallback [("q1", "a1"), ("q2", "a2"), ("q3", "a3")] "notes"

/-- C8 counterexample: a successful call whose `response.text` is the
empty string is coerced to `"{}"`, which parses, so the catch fallback is
skipped — yet the spread of the empty object leaves every DNA field
`undefined`: not non-empty, and not the fallback strings. -/
theorem c8_counterexample :
    (synthesizeDNA [("q1", "a1"), ("q2", "a2"), ("q3", "a3")] (some (some "")) "ctx").audience = none
    ∧ (synthesizeDNA [("q1", "a1"), ("q2", "a2"), ("q3", "a3")] (some (some "")) "ctx").audience ≠
        some "General Audience"
    ∧ synthesizeDNA [("q1", "a1"), ("q2", "a2"), ("q3", "a3")] (some (some "")) "ctx" ≠
        fallbackDNA "ctx"
    ∧ (synthesizeDNA [("q1", "a1"), ("q2", "a2"), ("q3", "a3")] (some (some "")) "ctx").rawContext =
        some "ctx" := by
  refine ⟨rfl, by decide, by decide, rfl⟩

/-- Pointwise-equal functions give equal maps. -/
theorem map_congr_mem {α β : Type} {l : List α} {f g : α → β}
    (h : ∀ a ∈ l, f a = g a) : l.map f = l.map g := by
  induction l with
  | nil => rfl
  | cons x xs ih =>
    simp only [List.map_cons, h x (List.mem_cons_self _ _)]
    rw [ih (fun a ha => h a (List.mem_cons_of_mem _ ha))]

/-- Every materialized task is `PENDING` with `PENDING` verification and
an empty chat history. -/
theorem status_materializeFrom (ids : Nat → String) :
    ∀ (i : Nat) (ps : List PlanItem) (u : MicroTask), u ∈ materializeFrom ids i ps →
      u.status = TaskStatus.PENDING ∧ u.verificationStatus = VerificationStatus.PENDING
        ∧ u.chatHistory = []
  | _, [], _, h => by simp [materializeFrom] at h
  | i, p :: ps, u, h => by
    rcases List.mem_cons.mp h with h1 | h1
    · subst h1; exact ⟨rfl, rfl, rfl⟩
    · exact status_materializeFrom ids (i + 1) ps u h1

/-- C1 (amended): an operation marks at most the entered task
`IN_PROGRESS`, and when `enterTask` does so the marked task is the
entered one and the current-task pointer equals its id; exiting
preserves every status (so it never demotes an `IN_PROGRESS` task, and
several tasks can end up `IN_PROGRESS` across entries — see the
counterexample), completing changes only the pointed-to task's status to
`COMPLETED`, resetting either keeps or empties the list, and launching
either keeps the list or replaces it by all-`PENDING` tasks. -/
theorem c1_inprogress_marking (s : AppModel) (tid : String) (d : Except Unit String)
    (t : MicroTask) (ht : t ∈ (enterTask s tid d).tasks) :
    (∃ t₀ ∈ s.tasks, t₀.id = t.id ∧
      (t.status = t₀.status ∨
        (t.id = tid ∧ t.status = TaskStatus.IN_PROGRESS ∧
          (enterTask s tid d).currentTaskId = some tid)))
    ∧ (handleExitTask s).tasks.map MicroTask.status = s.tasks.map MicroTask.status
    ∧ (handleCompleteTask s).tasks.map MicroTask.status =
        s.tasks.map (fun u => if some u.id = s.currentTaskId then TaskStatus.COMPLETED else u.status)
    ∧ (∀ b, (resetApp s b).tasks = s.tasks ∨ (resetApp s b).tasks = [])
    ∧ (∀ respText ids, (handleLaunch s respText ids).tasks = s.tasks ∨
        ∀ u ∈ (handleLaunch s respText ids).tasks, u.status = TaskStatus.PENDING) := by
  refine ⟨?_, ?_, ?_, ?_, ?_⟩
  · rcases hfind : (flushCurrent s).find? (fun u => u.id == tid) with _ | task
    · simp only [enterTask, hfind] at ht
      rcases mem_flushCurrent ht with ⟨t₀, hm, hid, hstat⟩
      exact ⟨t₀, hm, hid.symm, Or.inl hstat⟩
    · by_cases hcf : contentFalsy task.content = true
      · rcases d with _ | draft
        · simp only [enterTask, hfind, hcf, if_true] at ht
          rcases mem_flushCurrent ht with ⟨t₀, hm, hid, hstat⟩
          exact ⟨t₀, hm, hid.symm, Or.inl hstat⟩
        · simp only [enterTask, hfind, hcf, if_true] at ht
          rcases List.mem_map.mp ht with ⟨u, hu, rfl⟩
          rcases mem_flushCurrent hu with ⟨t₀, hm, hid, hstat⟩
          by_cases hb : u.id = tid
          · refine ⟨t₀, hm, by simp [hb, ← hid], Or.inr ⟨by simp [hb], by simp [hb], ?_⟩⟩
            simp [enterTask, hfind, hcf]
          · exact ⟨t₀, hm, by simp [hb, ← hid], Or.inl (by simp [hb, hstat])⟩
      · simp only [enterTask, hfind, hcf, if_false] at ht
        rcases mem_flushCurrent ht with ⟨t₀, hm, hid, hstat⟩
        exact ⟨t₀, hm, hid.symm, Or.inl hstat⟩
  · rcases hc : s.currentTaskId with _ | cid
    · simp [handleExitTask, hc]
    · simp only [handleExitTask, hc, overwriteContent, List.map_map]
      apply map_congr_mem
      intro u _
      by_cases h0 : u.id = cid <;> simp [h0]
  · rcases hc : s.currentTaskId with _ | cid
    · simp [handleCompleteTask, hc]
    · simp only [handleCompleteTask, hc, List.map_map]
      apply map_congr_mem
      intro u _
      by_cases h0 : u.id = cid <;> simp [h0]
  · intro b
    rcases b with _ | _
    · exact Or.inl (by simp [resetApp])
    · exact Or.inr (by simp [resetApp])
  · intro respText ids
    rcases hg : generatePlan s.dna respText with e | plan
    · exact Or.inl (by simp [handleLaunch, hg])
    · refine Or.inr (fun u hu => ?_)
      simp only [handleLaunch, hg] at hu
      by_cases he : (materializeTasks plan ids).isEmpty <;> simp only [he, if_true, if_false] at hu
      · exact (status_materializeFrom ids 0 plan u hu).1
      · exact (status_materializeFrom ids 0 plan u hu).1

theorem c1_witness :
    (∃ t₀ ∈ c1sample.tasks, t₀.id = c1marked.id ∧
      (c1marked.status = t₀.status ∨
        (c1marked.id = "w1" ∧ c1marked.status = TaskStatus.IN_PROGRESS ∧
          (enterTask c1sample "w1" (.ok "d0")).currentTaskId = some "w1")))
    ∧ (handleExitTask c1sample).tasks.map MicroTask.status = c1sample.tasks.map MicroTask.status
    ∧ (handleCompleteTask c1sample).tasks.map MicroTask.status =
        c1sample.tasks.map (fun u =>
          if some u.id = c1sample.currentTaskId then TaskStatus.COMPLETED else u.status)
    ∧ (∀ b, (resetApp c1sample b).tasks = c1sample.tasks ∨ (resetApp c1sample b).tasks = [])
    ∧ (∀ respText ids, (handleLaunch c1sample respText ids).tasks = c1sample.tasks ∨
        ∀ u ∈ (handleLaunch c1sample respText ids).tasks, u.status = TaskStatus.PENDING) :=
  c1_inprogress_marking c1sample "w1" (.ok "d0") c1marked (by decide)

/-- C1 counterexample: after launch, enter, exit, enter — all modelled
operations — the reachable state has two `IN_PROGRESS` tasks, one of
which is not the task the current pointer names. -/
theorem c1_counterexample :
    ReachableModel cexS4
    ∧ (cexS4.tasks.filter (fun t => t.status == TaskStatus.IN_PROGRESS)).length = 2
    ∧ cexS4.currentTaskId = some "t1"
    ∧ ∃ t ∈ cexS4.tasks, t.status = TaskStatus.IN_PROGRESS ∧ t.id ≠ "t1" := by
  refine ⟨?_, by set_option maxRecDepth 10000 in decide, by set_option maxRecDepth 10000 in decide,
    by set_option maxRecDepth 10000 in decide⟩
  exact Relation.ReflTransGen.tail (Relation.ReflTransGen.tail (Relation.ReflTransGen.tail
    (Relation.ReflTransGen.tail Relation.ReflTransGen.refl
      (AppStep.launch initialModel (some planJson2) cexIds))
      (AppStep.enter cexS1 "t0" (.ok "draft0")))
      (AppStep.exitTask cexS2))
      (AppStep.enter cexS3 "t1" (.ok "draft1"))

/-- Materialization preserves length. -/
theorem length_materializeFrom (ids : Nat → String) :
    ∀ (i : Nat) (ps : List PlanItem), (materializeFrom ids i ps).length = ps.length
  | _, [] => rfl
  | i, _ :: ps => by simp [materializeFrom, length_materializeFrom ids (i + 1) ps]

/-- The `k`-th materialized task wraps the `k`-th descriptor with the
`(i+k)`-th generated id. -/
theorem get_materializeFrom (ids : Nat → String) :
    ∀ (ps : List PlanItem) (i k : Nat) (h : k < (materializeFrom ids i ps).length)
      (h' : k < ps.length),
      (materializeFrom ids i ps).get ⟨k, h⟩ = mkMicroTask (ids (i + k)) (ps.get ⟨k, h'⟩)
  | [], _, k, h, _ => by simp [materializeFrom] at h
  | p :: ps, i, 0, _, _ => by simp [materializeFrom, mkMicroTask]
  | p :: ps, i, k + 1, h, h' => by
    have hr := get_materializeFrom ids ps (i + 1) k
      (by simpa [materializeFrom] using Nat.lt_of_succ_lt_succ (by simpa [materializeFrom] using h))
      (Nat.lt_of_succ_lt_succ h')
    simpa [materializeFrom, Nat.add_assoc, Nat.add_comm 1 k] using hr

/-- The materialized ids are the generated sequence. -/
theorem map_id_materializeFrom (ids : Nat → String) :
    ∀ (i : Nat) (ps : List PlanItem),
      (materializeFrom ids i ps).map MicroTask.id =
        (List.range ps.length).map (fun k => ids (i + k))
  | _, [] => rfl
  | i, p :: ps => by
    simp only [materializeFrom, List.map_cons, List.length_cons, List.range_succ_eq_map,
      List.map_map, mkMicroTask]
    rw [map_id_materializeFrom ids (i + 1) ps]
    refine congrArg (List.cons _) ?_
    apply map_congr_mem
    intro a _
    simp [Function.comp]
    exact congrArg ids (by omega)

/-- C4 (claim): a successful plan of `n` descriptors with valid agent
types materializes into exactly `n` tasks in order, each wrapping its
descriptor's title, description, estimated minutes and agent type with a
fresh id, `PENDING` status, `PENDING` verification status and an empty
chat history; when the generated ids are pairwise distinct so are the
task ids. -/
theorem c4_materialize (s : AppModel) (respText : Option String) (ids : Nat → String)
    (plan : List PlanItem)
    (hok : generatePlan s.dna respText = .ok plan)
    (hvalid : ∀ p ∈ plan, p.agentType ∈ validAgentTypes)
    (hinj : ∀ i < plan.length, ∀ j < plan.length, ids i = ids j → i = j) :
    (handleLaunch s respText ids).tasks.length = plan.length
    ∧ (∀ k (hk : k < plan.length) (hk' : k < (handleLaunch s respText ids).tasks.length),
        ((handleLaunch s respText ids).tasks.get ⟨k, hk'⟩).id = ids k
        ∧ ((handleLaunch s respText ids).tasks.get ⟨k, hk'⟩).title = (plan.get ⟨k, hk⟩).title
        ∧ ((handleLaunch s respText ids).tasks.get ⟨k, hk'⟩).description =
            (plan.get ⟨k, hk⟩).description
        ∧ ((handleLaunch s respText ids).tasks.get ⟨k, hk'⟩).estimatedMinutes =
            (plan.get ⟨k, hk⟩).estimatedMinutes
        ∧ ((handleLaunch s respText ids).tasks.get ⟨k, hk'⟩).agentType =
            (plan.get ⟨k, hk⟩).agentType
        ∧ ((handleLaunch s respText ids).tasks.get ⟨k, hk'⟩).agentType ∈ validAgentTypes
        ∧ ((handleLaunch s respText ids).tasks.get ⟨k, hk'⟩).status = TaskStatus.PENDING
        ∧ ((handleLaunch s respText ids).tasks.get ⟨k, hk'⟩).verificationStatus =
            VerificationStatus.PENDING
        ∧ ((handleLaunch s respText ids).tasks.get ⟨k, hk'⟩).chatHistory = [])
    ∧ ((handleLaunch s respText ids).tasks.map MicroTask.id).Nodup := by
  have htasks : (handleLaunch s respText ids).tasks = materializeTasks plan ids := by
    simp only [handleLaunch, hok]
    by_cases he : (materializeTasks plan ids).isEmpty <;> simp [he]
  have hlen : (handleLaunch s respText ids).tasks.length = plan.length := by
    rw [htasks]; exact length_materializeFrom ids 0 plan
  refine ⟨hlen, ?_, ?_⟩
  · intro k hk hk'
    have hk2 : k < (materializeTasks plan ids).length := by rwa [htasks] at hk'
    have hget : (handleLaunch s respText ids).tasks.get ⟨k, hk'⟩ =
        mkMicroTask (ids k) (plan.get ⟨k, hk⟩) := by
      have := get_materializeFrom ids plan 0 k hk2 hk
      simp only [Nat.zero_add] at this
      rw [List.get_of_eq htasks ⟨k, hk'⟩]
      exact this
    rw [hget]
    exact ⟨rfl, rfl, rfl, rfl, rfl, hvalid _ (List.get_mem plan k hk), rfl, rfl, rfl⟩
  · rw [htasks]
    show ((materializeFrom ids 0 plan).map MicroTask.id).Nodup
    rw [map_id_materializeFrom ids 0 plan]
    refine List.Nodup.map_on ?_ (List.nodup_range _)
    intro x hx y hy hxy
    simp only [List.mem_range] at hx hy
    simpa using hinj x (by simpa using hx) y (by simpa using hy) (by simpa using hxy)

theorem c4_witness :
    (handleLaunch initialModel (some planJson5) ids5).tasks.length = plan5.length
    ∧ (∀ k (hk : k < plan5.length)
        (hk' : k < (handleLaunch initialModel (some planJson5) ids5).tasks.length),
        ((handleLaunch initialModel (some planJson5) ids5).tasks.get ⟨k, hk'⟩).id = ids5 k
        ∧ ((handleLaunch initialModel (some planJson5) ids5).tasks.get ⟨k, hk'⟩).title =
            (plan5.get ⟨k, hk⟩).title
        ∧ ((handleLaunch initialModel (some planJson5) ids5).tasks.get ⟨k, hk'⟩).description =
            (plan5.get ⟨k, hk⟩).description
        ∧ ((handleLaunch initialModel (some planJson5) ids5).tasks.get ⟨k, hk'⟩).estimatedMinutes =
            (plan5.get ⟨k, hk⟩).estimatedMinutes
        ∧ ((handleLaunch initialModel (some planJson5) ids5).tasks.get ⟨k, hk'⟩).agentType =
            (plan5.get ⟨k, hk⟩).agentType
        ∧ ((handleLaunch initialModel (some planJson5) ids5).tasks.get ⟨k, hk'⟩).agentType ∈
            validAgentTypes
        ∧ ((handleLaunch initialModel (some planJson5) ids5).tasks.get ⟨k, hk'⟩).status =
            TaskStatus.PENDING
        ∧ ((handleLaunch initialModel (some planJson5) ids5).tasks.get ⟨k, hk'⟩).verificationStatus =
            VerificationStatus.PENDING
        ∧ ((handleLaunch initialModel (some planJson5) ids5).tasks.get ⟨k, hk'⟩).chatHistory = [])
    ∧ ((handleLaunch initialModel (some planJson5) ids5).tasks.map MicroTask.id).Nodup :=
  c4_materialize initialModel (some planJson5) ids5 plan5
    (by set_option maxRecDepth 10000 in exact rfl)
    (by decide)
    (by decide)

/-- Digits start every `natDigits` rendering. -/
theorem isDigitChar_ofNat48 {n : Nat} (h : n < 10) : isDigitChar (Char.ofNat (48 + n)) = true := by
  interval_cases n <;> decide

/-- Reading back the digit character of `n < 10`. -/
theorem digitVal_ofNat48 {n : Nat} (h : n < 10) : digitVal (Char.ofNat (48 + n)) = n := by
  interval_cases n <;> decide

/-- `natDigits` never produces the empty list. -/
theorem natDigits_ne_nil (n : Nat) : natDigits n ≠ [] := by
  rw [natDigits]
  split <;> simp

/-- Every character of `natDigits` is a digit. -/
theorem natDigits_all_digit (n : Nat) : ∀ c ∈ natDigits n, isDigitChar c = true := by
  induction n using Nat.strong_induction_on with
  | _ n ih =>
    rw [natDigits]
    by_cases h : n < 10
    · rw [dif_pos h]
      intro c hc
      rw [List.mem_singleton] at hc
      exact hc ▸ isDigitChar_ofNat48 h
    · rw [dif_neg h]
      intro c hc
      rcases List.mem_append.mp hc with h1 | h1
      · exact ih (n / 10) (Nat.div_lt_self (by omega) (by omega)) c h1
      · rw [List.mem_singleton] at h1
        exact h1 ▸ isDigitChar_ofNat48 (Nat.mod_lt _ (by omega))

/-- Folding the digit characters of `n` back recovers `n`. -/
theorem foldl_natDigits (n : Nat) :
    (natDigits n).foldl (fun a c => a * 10 + digitVal c) 0 = n := by
  induction n using Nat.strong_induction_on with
  | _ n ih =>
    rw [natDigits]
    by_cases h : n < 10
    · rw [dif_pos h]
      simp [digitVal_ofNat48 h]
    · rw [dif_neg h]
      rw [List.foldl_append, ih (n / 10) (Nat.div_lt_self (by omega) (by omega))]
      simp only [List.foldl_cons, List.foldl_nil, digitVal_ofNat48 (Nat.mod_lt n (by omega))]
      omega

/-- Splitting an all-digit prefix from a non-digit boundary. -/
theorem span_digits :
    ∀ (ds rest : List Char), (∀ c ∈ ds, isDigitChar c = true) → numBoundary rest = true →
      (ds ++ rest).takeWhile isDigitChar = ds ∧ (ds ++ rest).dropWhile isDigitChar = rest
  | [], rest, _, hb => by
    cases rest with
    | nil => exact ⟨rfl, rfl⟩
    | cons c cs =>
      have hc : isDigitChar c = false := by simpa [numBoundary] using hb
      simp [List.takeWhile_cons, List.dropWhile_cons, hc]
  | d :: ds, rest, hall, hb => by
    have hd := hall d (List.mem_cons_self _ _)
    have ih := span_digits ds rest (fun c hc => hall c (List.mem_cons_of_mem _ hc)) hb
    simp [List.takeWhile_cons, List.dropWhile_cons, hd, ih.1, ih.2]

/-- Parsing the printed digits of `n` against a boundary recovers
`n`. -/
theorem parseNatNum_natDigits (n : Nat) (rest : List Char) (hb : numBoundary rest = true) :
    parseNatNum (natDigits n ++ rest) = some (n, rest) := by
  have h1 := span_digits (natDigits n) rest (natDigits_all_digit n) hb
  rw [parseNatNum, h1.1, h1.2]
  have h2 : (natDigits n).isEmpty = false := by
    rcases hne : natDigits n with _ | ⟨c, cs⟩
    · exact absurd hne (natDigits_ne_nil n)
    · rfl
  rw [h2]
  simp [foldl_natDigits n]

/-- Reading back a printed hexadecimal digit. -/
theorem hexVal_hexDigitChar {n : Nat} (h : n < 16) : hexVal (hexDigitChar n) = some n := by
  interval_cases n <;> decide

/-- Parsing an escaped string body against its closing quote recovers
the original characters. -/
theorem parseStrBody_escString :
    ∀ (cs rest : List Char), parseStrBody (escString cs ++ '\"' :: rest) = some (cs, rest)
  | [], rest => by
    show parseStrBody ('\"' :: rest) = some ([], rest)
    rw [parseStrBody.eq_def]
    simp
  | c :: cs, rest => by
    have ih := parseStrBody_escString cs rest
    have hesc : escString (c :: cs) ++ '\"' :: rest = escChar c ++ (escString cs ++ '\"' :: rest) := by
      simp [escString]
    rw [hesc]
    by_cases h1 : c = '\"'
    · subst h1
      simp [escChar, parseStrBody, escDecode, ih]
    · by_cases h2 : c = '\\'
      · subst h2
        simp [escChar, parseStrBody, escDecode, ih]
      · by_cases h3 : c = Char.ofNat 8
        · subst h3
          simp [escChar, parseStrBody, escDecode, ih]
        · by_cases h4 : c = Char.ofNat 9
          · subst h4
            simp [escChar, parseStrBody, escDecode, ih]
          · by_cases h5 : c = Char.ofNat 10
            · subst h5
              simp [escChar, parseStrBody, escDecode, ih]
            · by_cases h6 : c = Char.ofNat 12
              · subst h6
                simp [escChar, parseStrBody, escDecode, ih]
              · by_cases h7 : c = Char.ofNat 13
                · subst h7
                  simp [escChar, parseStrBody, escDecode, ih]
                · by_cases h8 : c.toNat < 32
                  · have hlist : escChar c = ['\\', 'u', '0', '0',
                        hexDigitChar (c.toNat / 16), hexDigitChar (c.toNat % 16)] := by
                      simp only [escChar, if_neg h1, if_neg h2, if_neg h3, if_neg h4,
                        if_neg h5, if_neg h6, if_neg h7, if_pos h8]
                    rw [hlist]
                    have hhi : hexVal (hexDigitChar (c.toNat / 16)) = some (c.toNat / 16) :=
                      hexVal_hexDigitChar (by omega)
                    have hlo : hexVal (hexDigitChar (c.toNat % 16)) = some (c.toNat % 16) :=
                      hexVal_hexDigitChar (Nat.mod_lt _ (by omega))
                    have hval : ((0 * 16 + 0) * 16 + c.toNat / 16) * 16 + c.toNat % 16 = c.toNat := by
                      omega
                    simp [parseStrBody, hhi, hlo, ih, hval, Char.ofNat_toNat,
                      show hexVal '0' = some 0 from rfl]
                    rw [show c.toNat / 16 * 16 + c.toNat % 16 = c.toNat from by omega,
                      Char.ofNat_toNat]
                  · have hlist : escChar c = [c] := by
                      simp only [escChar, if_neg h1, if_neg h2, if_neg h3, if_neg h4,
                        if_neg h5, if_neg h6, if_neg h7, if_neg h8]
                    rw [hlist]
                    rw [List.cons_append, parseStrBody.eq_def]
                    simp [h1, h2, h8, ih]

/-- Sizes are positive. -/
theorem jsize_pos (j : Json) : 1 ≤ jsize j := by
  cases j <;> simp [jsize]

/-- Element-list sizes are positive. -/
theorem jsizeL_pos (xs : List Json) : 1 ≤ jsizeL xs := by
  cases xs with
  | nil => simp [jsizeL]
  | cons x xs => simp [jsizeL]; omega

/-- Member-list sizes are positive. -/
theorem jsizeM_pos (kvs : List (String × Json)) : 1 ≤ jsizeM kvs := by
  cases kvs with
  | nil => simp [jsizeM]
  | cons kv kvs => simp [jsizeM]; omega

/-- A digit is not whitespace and not a closing delimiter. -/
theorem digit_not_special {c : Char} (h : isDigitChar c = true) :
    isWsChar c = false ∧ c ≠ ']' ∧ c ≠ braceR := by
  refine ⟨?_, ?_, ?_⟩
  · cases hw : isWsChar c
    · rfl
    · exfalso
      simp only [isWsChar, Bool.or_eq_true, decide_eq_true_eq] at hw
      rcases hw with ((h1 | h1) | h1) | h1 <;> (subst h1; exact absurd h (by decide))
  · intro he
    rw [he] at h
    exact absurd h (by decide)
  · intro he
    rw [he] at h
    exact absurd h (by decide)

/-- Every printed value starts with a non-whitespace character that is
neither a closing bracket nor a closing brace. -/
theorem printJson_shape (j : Json) :
    ∃ c cs, printJson j = c :: cs ∧ isWsChar c = false ∧ c ≠ ']' ∧ c ≠ braceR := by
  cases j with
  | null => exact ⟨'n', ['u', 'l', 'l'], by simp [printJson], by decide, by decide, by decide⟩
  | bool b =>
    cases b with
    | true => exact ⟨'t', ['r', 'u', 'e'], by simp [printJson], by decide, by decide, by decide⟩
    | false => exact ⟨'f', ['a', 'l', 's', 'e'], by simp [printJson], by decide, by decide, by decide⟩
  | num i =>
    by_cases hi : i < 0
    · exact ⟨'-', natDigits i.natAbs, by simp [printJson, printInt, hi], by decide, by decide,
        by decide⟩
    · obtain ⟨d, ds, hd⟩ := List.exists_cons_of_ne_nil (natDigits_ne_nil i.natAbs)
      have hdig : isDigitChar d = true :=
        natDigits_all_digit i.natAbs d (hd ▸ List.mem_cons_self _ _)
      obtain ⟨hws, hne1, hne2⟩ := digit_not_special hdig
      exact ⟨d, ds, by simp [printJson, printInt, hi, hd], hws, hne1, hne2⟩
  | str s =>
    exact ⟨'\"', escString s.data ++ ['\"'], by simp [printJson], by decide, by decide, by decide⟩
  | arr xs =>
    exact ⟨'[', printElems xs ++ [']'], by simp [printJson], by decide, by decide, by decide⟩
  | obj kvs =>
    exact ⟨braceL, printMembers kvs ++ [braceR], by simp [printJson], by decide, by decide,
      by decide⟩

/-- Every printed non-empty element list starts like a printed value. -/
theorem printElems_shape (x : Json) (xs : List Json) :
    ∃ c cs, printElems (x :: xs) = c :: cs ∧ isWsChar c = false ∧ c ≠ ']' ∧ c ≠ braceR := by
  obtain ⟨c, cs, hx, hws, h1, h2⟩ := printJson_shape x
  cases xs with
  | nil => exact ⟨c, cs, by simp [printElems, hx], hws, h1, h2⟩
  | cons y ys =>
    exact ⟨c, cs ++ ',' :: printElems (y :: ys), by simp [printElems, hx], hws, h1, h2⟩

/-- Every printed non-empty member list starts with a quote. -/
theorem printMembers_shape (k : String) (v : Json) (kvs : List (String × Json)) :
    ∃ cs, printMembers ((k, v) :: kvs) = '\"' :: cs := by
  cases kvs with
  | nil => exact ⟨escString k.data ++ '\"' :: ':' :: printJson v, by simp [printMembers]⟩
  | cons kv2 kvs' =>
    exact ⟨(escString k.data ++ '\"' :: ':' :: printJson v) ++ ',' :: printMembers (kv2 :: kvs'),
      by simp [printMembers]⟩

/-- Rebuilding a string from its character data is the identity. -/
theorem stringMk_data (s : String) : String.mk s.data = s := rfl

/-- Skipping whitespace at a non-whitespace head is the identity. -/
theorem skipWs_not_ws {c : Char} (h : isWsChar c = false) (cs : List Char) :
    skipWs (c :: cs) = c :: cs := by
  simp [skipWs, h]

/-- Parsing a printed value (then element lists, then member lists)
against sufficient fuel recovers the value and the trailing context. -/
theorem parse_print_aux : ∀ fuel : Nat,
    (∀ j rest, jsize j ≤ fuel → numBoundary rest = true →
      parseVal fuel (printJson j ++ rest) = some (j, rest))
    ∧ (∀ x xs rest, jsizeL (x :: xs) ≤ fuel →
      parseElems fuel (printElems (x :: xs) ++ ']' :: rest) = some (x :: xs, rest))
    ∧ (∀ k v kvs rest, jsizeM ((k, v) :: kvs) ≤ fuel →
      parseMembers fuel (printMembers ((k, v) :: kvs) ++ braceR :: rest) =
        some ((k, v) :: kvs, rest)) := by
  intro fuel
  induction fuel with
  | zero =>
    refine ⟨fun j rest hj _ => absurd hj (by have := jsize_pos j; omega),
      fun x xs rest h => absurd h (by have := jsizeL_pos (x :: xs); omega),
      fun k v kvs rest h => absurd h (by have := jsizeM_pos ((k, v) :: kvs); omega)⟩
  | succ fuel ih =>
    obtain ⟨ihA, ihB, ihC⟩ := ih
    refine ⟨?_, ?_, ?_⟩
    · intro j rest hj hb
      cases j with
      | null =>
        rw [show printJson .null = ['n', 'u', 'l', 'l'] from by simp [printJson]]
        rfl
      | bool b =>
        cases b with
        | true =>
          rw [show printJson (.bool true) = ['t', 'r', 'u', 'e'] from by simp [printJson]]
          rfl
        | false =>
          rw [show printJson (.bool false) = ['f', 'a', 'l', 's', 'e'] from by simp [printJson]]
          rfl
      | num i =>
        by_cases hi : i < 0
        · rw [show printJson (.num i) = '-' :: natDigits i.natAbs from by
            simp [printJson, printInt, hi]]
          rw [List.cons_append, parseVal.eq_def]
          simp only [skipWs_not_ws (by decide : isWsChar '-' = false)]
          rw [if_neg (show ¬ '-' = '\"' by decide), if_neg (show ¬ '-' = braceL by decide),
            if_neg (show ¬ '-' = '[' by decide), if_neg (show ¬ '-' = 't' by decide),
            if_neg (show ¬ '-' = 'f' by decide), if_neg (show ¬ '-' = 'n' by decide),
            if_pos (show True by trivial), parseNatNum_natDigits i.natAbs rest hb]
          simp only [Option.some.injEq, Prod.mk.injEq, Json.num.injEq]
          refine ⟨by omega, by trivial⟩
        · obtain ⟨d, ds, hd⟩ := List.exists_cons_of_ne_nil (natDigits_ne_nil i.natAbs)
          have hdig : isDigitChar d = true :=
            natDigits_all_digit i.natAbs d (hd ▸ List.mem_cons_self _ _)
          obtain ⟨hws, _, _⟩ := digit_not_special hdig
          have hne : ∀ x : Char, isWsChar x = false → (isDigitChar x = true) →
              ¬ x = '\"' ∧ ¬ x = braceL ∧ ¬ x = '[' ∧ ¬ x = 't' ∧ ¬ x = 'f' ∧ ¬ x = 'n'
                ∧ ¬ x = '-' := by
            intro x _ hx
            refine ⟨?_, ?_, ?_, ?_, ?_, ?_, ?_⟩ <;>
              (intro he; rw [he] at hx; exact absurd hx (by decide))
          obtain ⟨he1, he2, he3, he4, he5, he6, he7⟩ := hne d hws hdig
          rw [show printJson (.num i) = natDigits i.natAbs from by simp [printJson, printInt, hi]]
          rw [hd, List.cons_append, parseVal.eq_def]
          simp only [skipWs_not_ws hws, if_neg he1, if_neg he2, if_neg he3, if_neg he4,
            if_neg he5, if_neg he6, if_neg he7, if_pos hdig]
          rw [← List.cons_append, ← hd, parseNatNum_natDigits i.natAbs rest hb]
          simp only [Option.some.injEq, Prod.mk.injEq, Json.num.injEq]
          refine ⟨by omega, by trivial⟩
      | str s =>
        rw [show printJson (.str s) ++ rest = '\"' :: (escString s.data ++ '\"' :: rest) from by
          simp [printJson]]
        rw [parseVal.eq_def]
        simp only [skipWs_not_ws (by decide : isWsChar '\"' = false), if_pos rfl,
          parseStrBody_escString s.data rest]
        rfl
      | arr xs =>
        cases xs with
        | nil =>
          rw [show printJson (.arr []) = ['[', ']'] from by simp [printJson, printElems]]
          rfl
        | cons x xs =>
          obtain ⟨c, cs0, hpe, hws, hne1, _⟩ := printElems_shape x xs
          rw [show printJson (.arr (x :: xs)) ++ rest =
              '[' :: (printElems (x :: xs) ++ ']' :: rest) from by simp [printJson]]
          rw [parseVal.eq_def]
          simp only [skipWs_not_ws (by decide : isWsChar '[' = false)]
          rw [if_neg (show ¬ '[' = '\"' by decide), if_neg (show ¬ '[' = braceL by decide),
            if_pos (show True by trivial)]
          rw [hpe, List.cons_append, skipWs_not_ws hws]
          simp only [if_neg hne1]
          rw [← List.cons_append, ← hpe]
          rw [ihB x xs rest (by simp [jsize] at hj; omega)]
      | obj kvs =>
        cases kvs with
        | nil =>
          rw [show printJson (.obj []) ++ rest = braceL :: braceR :: rest from by
            simp [printJson, printMembers]]
          rw [parseVal.eq_def]
          simp only [skipWs_not_ws (by decide : isWsChar braceL = false)]
          rw [if_neg (show ¬braceL = '\"' by decide), if_pos (show True by trivial)]
          rw [skipWs_not_ws (by decide : isWsChar braceR = false)]
          simp only [if_pos (show True by trivial)]
        | cons kv kvs =>
          obtain ⟨k, v⟩ := kv
          obtain ⟨cs0, hpm⟩ := printMembers_shape k v kvs
          rw [show printJson (.obj ((k, v) :: kvs)) ++ rest =
              braceL :: (printMembers ((k, v) :: kvs) ++ braceR :: rest) from by simp [printJson]]
          rw [parseVal.eq_def]
          simp only [skipWs_not_ws (by decide : isWsChar braceL = false)]
          rw [if_neg (show ¬braceL = '\"' by decide), if_pos (show True by trivial)]
          rw [hpm, List.cons_append, skipWs_not_ws (by decide : isWsChar '\"' = false)]
          simp only [if_neg (show ¬ '\"' = braceR by decide)]
          rw [← List.cons_append, ← hpm]
          rw [ihC k v kvs rest (by simp [jsize] at hj; omega)]
    · intro x xs rest hsz
      cases xs with
      | nil =>
        rw [show printElems [x] = printJson x from by simp [printElems]]
        have hA := ihA x (']' :: rest) (by simp [jsizeL] at hsz; omega) (by rfl)
        rw [parseElems.eq_def]
        simp only [hA, skipWs_not_ws (by decide : isWsChar ']' = false)]
      | cons y ys =>
        rw [show printElems (x :: y :: ys) = printJson x ++ ',' :: printElems (y :: ys) from by
          simp [printElems]]
        rw [List.append_assoc, List.cons_append]
        have hszx : jsize x ≤ fuel := by
          simp [jsizeL] at hsz
          have := jsizeL_pos (y :: ys)
          omega
        have hA := ihA x (',' :: (printElems (y :: ys) ++ ']' :: rest)) hszx (by rfl)
        have hB := ihB y ys rest (by simp [jsizeL] at hsz ⊢; have := jsize_pos x; omega)
        rw [parseElems.eq_def]
        simp only [hA, skipWs_not_ws (by decide : isWsChar ',' = false), hB]
    · intro k v kvs rest hsz
      have hkv : printMembers ((k, v) :: kvs) ++ braceR :: rest =
          '\"' :: (escString k.data ++ '\"' :: (':' :: (printJson v ++
            (match kvs with
             | [] => braceR :: rest
             | kv2 :: kvs' => ',' :: (printMembers (kv2 :: kvs') ++ braceR :: rest))))) := by
        cases kvs with
        | nil => simp [printMembers]
        | cons kv2 kvs' => simp [printMembers]
      have hszv : jsize v ≤ fuel := by
        simp [jsizeM] at hsz
        have := jsizeM_pos kvs
        omega
      cases kvs with
      | nil =>
        have hA := ihA v (braceR :: rest) hszv (by rfl)
        rw [hkv, parseMembers.eq_def]
        simp only [skipWs_not_ws (by decide : isWsChar '\"' = false),
          if_pos (show True by trivial), parseStrBody_escString k.data,
          skipWs_not_ws (by decide : isWsChar ':' = false), hA,
          skipWs_not_ws (by decide : isWsChar braceR = false),
          if_neg (show ¬braceR = ',' by decide), stringMk_data]
      | cons kv2 kvs' =>
        obtain ⟨k2, v2⟩ := kv2
        have hA := ihA v (',' :: (printMembers ((k2, v2) :: kvs') ++ braceR :: rest)) hszv (by rfl)
        have hC := ihC k2 v2 kvs' rest (by simp [jsizeM] at hsz ⊢; have := jsize_pos v; omega)
        rw [hkv, parseMembers.eq_def]
        simp only [skipWs_not_ws (by decide : isWsChar '\"' = false),
          if_pos (show True by trivial), parseStrBody_escString k.data,
          skipWs_not_ws (by decide : isWsChar ':' = false), hA,
          skipWs_not_ws (by decide : isWsChar ',' = false), hC, stringMk_data]

/-- The parser fuel a value needs is dominated by twice its printed
length. -/
theorem jsize_le_printLen : ∀ N : Nat,
    (∀ j : Json, sizeOf j ≤ N → jsize j + 1 ≤ 2 * (printJson j).length)
    ∧ (∀ xs : List Json, sizeOf xs ≤ N → jsizeL xs ≤ 2 * (printElems xs).length + 1)
    ∧ (∀ kvs : List (String × Json), sizeOf kvs ≤ N →
        jsizeM kvs ≤ 2 * (printMembers kvs).length + 1) := by
  intro N
  induction N using Nat.strong_induction_on with
  | _ N ih =>
    refine ⟨?_, ?_, ?_⟩
    · intro j hsz
      cases j with
      | null => simp [jsize, printJson]
      | bool b => cases b <;> simp [jsize, printJson]
      | num i =>
        have := List.length_pos.mpr (natDigits_ne_nil i.natAbs)
        by_cases hi : i < 0 <;> simp [jsize, printJson, printInt, hi] <;> omega
      | str s => simp [jsize, printJson]
      | arr xs =>
        have hlt : sizeOf xs < N := by
          have hs : sizeOf (Json.arr xs) = 1 + sizeOf xs := by simp
          omega
        have hB := (ih (sizeOf xs) hlt).2.1 xs le_rfl
        simp [jsize, printJson]
        omega
      | obj kvs =>
        have hlt : sizeOf kvs < N := by
          have hs : sizeOf (Json.obj kvs) = 1 + sizeOf kvs := by simp
          omega
        have hC := (ih (sizeOf kvs) hlt).2.2 kvs le_rfl
        simp [jsize, printJson]
        omega
    · intro xs hsz
      cases xs with
      | nil => simp [jsizeL, printElems]
      | cons x xs =>
        have hszc : sizeOf (x :: xs) = 1 + sizeOf x + sizeOf xs := by simp
        have hx : sizeOf x < N := by omega
        have hA := (ih (sizeOf x) hx).1 x le_rfl
        cases xs with
        | nil =>
          simp [jsizeL, printElems]
          omega
        | cons y ys =>
          have hy : sizeOf (y :: ys) < N := by omega
          have hB := (ih (sizeOf (y :: ys)) hy).2.1 (y :: ys) le_rfl
          simp [jsizeL, printElems] at hB ⊢
          omega
    · intro kvs hsz
      cases kvs with
      | nil => simp [jsizeM, printMembers]
      | cons kv kvs =>
        obtain ⟨k, v⟩ := kv
        have hszc : sizeOf ((k, v) :: kvs) = 1 + (1 + sizeOf k + sizeOf v) + sizeOf kvs := by
          simp
        have hv : sizeOf v < N := by omega
        have hA := (ih (sizeOf v) hv).1 v le_rfl
        cases kvs with
        | nil =>
          simp [jsizeM, printMembers]
          omega
        | cons kv2 kvs' =>
          have h2 : sizeOf (kv2 :: kvs') < N := by omega
          have hC := (ih (sizeOf (kv2 :: kvs')) h2).2.2 (kv2 :: kvs') le_rfl
          simp [jsizeM, printMembers] at hC ⊢
          omega

/-- Round trip at the string level: parsing a printed value yields the
value back. -/
theorem parseJson_print (j : Json) : parseJson (String.mk (printJson j)) = some j := by
  have hfuel : jsize j ≤ 2 * (printJson j).length + 1 := by
    have := (jsize_le_printLen (sizeOf j)).1 j le_rfl
    omega
  have h := (parse_print_aux (2 * (printJson j).length + 1)).1 j [] hfuel (by rfl)
  rw [List.append_nil] at h
  simp [parseJson, h, skipWs]

/-- Accumulator form: mapping an encoder and then decoding elementwise
succeeds and returns the elements after the accumulator. -/
theorem mapM_loop_map {α β : Type} (f : α → β) (g : β → Option α)
    (h : ∀ x, g (f x) = some x) :
    ∀ (l : List α) (acc : List α),
      List.mapM.loop g (l.map f) acc = some (acc.reverse ++ l) := by
  intro l
  induction l with
  | nil => intro acc; simp [List.mapM.loop]
  | cons x xs ih =>
    intro acc
    simp [List.mapM.loop, h, ih]

/-- Mapping an encoder and then decoding elementwise is the identity. -/
theorem mapM_map_round {α β : Type} (f : α → β) (g : β → Option α)
    (h : ∀ x, g (f x) = some x) : ∀ l : List α, (l.map f).mapM g = some l := by
  intro l
  simp [List.mapM, mapM_loop_map f g h]

/-- Decoding an encoded chat message is the identity. -/
theorem decodeMsg_encodeMsg (m : ChatMessage) : decodeMsg (encodeMsg m) = some m := by
  rcases m with ⟨i, ro, tx, ts, sn, pe⟩
  rcases sn with _ | sn <;> rcases pe with _ | pe <;>
    simp [encodeMsg, decodeMsg, optField, jLookup, jStr, jInt, List.find?]

/-- Decoding an encoded task is the identity. -/
theorem decodeTask_encodeTask (t : MicroTask) : decodeTask (encodeTask t) = some t := by
  rcases t with ⟨i, ti, de, em, st, vs, ag, co, vc, hist⟩
  rcases co with _ | co <;> rcases vc with _ | vc <;>
    simp [encodeTask, decodeTask, optField, jLookup, jStr, jInt, List.find?,
      mapM_map_round encodeMsg decodeMsg decodeMsg_encodeMsg,
      mapM_loop_map encodeMsg decodeMsg decodeMsg_encodeMsg]

/-- Decoding an encoded DNA record is the identity. -/
theorem decodeDna_encodeDna (d : ProjectDNA) : decodeDna (encodeDna d) = some d := by
  rcases d with ⟨au, pr, to2, ag, st, rc⟩
  rcases au with _ | au <;> rcases pr with _ | pr <;> rcases to2 with _ | to2 <;>
    rcases ag with _ | ag <;> rcases st with _ | st <;> rcases rc with _ | rc <;>
    simp [encodeDna, decodeDna, optField, jLookup, jStr, List.find?]

/-- Decoding the encoded persisted record is the identity. -/
theorem decodePersisted_encodePersisted (d : ProjectDNA) (tasks : List MicroTask) :
    decodePersisted (encodePersisted d tasks) = some (d, tasks) := by
  simp [encodePersisted, decodePersisted, jLookup, List.find?, decodeDna_encodeDna,
    mapM_map_round encodeTask decodeTask decodeTask_encodeTask,
    mapM_loop_map encodeTask decodeTask decodeTask_encodeTask]

/-- C7 (claim): serializing any `{dna, tasks}` structure to the
persisted record and reading it back yields an identical structure —
every DNA field and, for each task, its id, title, description,
estimated minutes, status, verification status, agent type, content,
visual code and full chat history survive the round trip. -/
theorem c7_persist_roundtrip (d : ProjectDNA) (tasks : List MicroTask) :
    loadState (persistState d tasks) = some (d, tasks) := by
  rw [loadState, persistState, parseJson_print]
  simp [decodePersisted_encodePersisted]
